import Mathlib

/-!
Verification of the replica-exchange master coordinator
(`meld/remd/master_runner.py`) against its specification.

Modelling conventions:
* Python floats are modelled as `ℚ`; Python ints as `ℕ`.
* Python operations that can raise (`ZeroDivisionError`, `IndexError`,
  failing `assert`) are modelled with `Option` / `Except`.
* The external collaborators (communicator, system runner, store, ladder,
  adaptor) are modelled as an environment of pure functions `Env`; the
  coordinator's calls to them are recorded in an event trace so that
  ordering, tagging and counting properties can be stated.
-/

namespace Meld

/-- A replica state as manipulated by the coordinator: the coordinator only
ever reads and rewrites the `positions` and `energy` attributes of a state,
so exactly those two fields are modelled; their payloads are opaque type
parameters. -/
structure SystemState (π ε : Type) where
  positions : π
  energy : ε
deriving DecidableEq

/-- Embedding of `MasterReplicaExchangeRunner._setup_alphas`:
`delta = 1.0 / (self._n_replicas - 1.0)` raises `ZeroDivisionError` exactly
when `n_replicas == 1` (modelled as `none`); otherwise the alphas list is
`[i * delta for i in range(self._n_replicas)]`. -/
def _setup_alphas (n_replicas : ℕ) : Option (List ℚ) :=
  if ((n_replicas : ℚ) - 1) = 0 then none
  else
    some ((List.range n_replicas).map
      (fun i : ℕ => (i : ℚ) * (1 / ((n_replicas : ℚ) - 1))))

/-- The serializable state owned by the coordinator
(`MasterReplicaExchangeRunner`): replica count, step bounds, the current step
counter, the alphas vector and the optional ramp length.  The ladder and
adaptor collaborators are black boxes and live in `Env` below. -/
structure MasterReplicaExchangeRunner where
  n_replicas : ℕ
  max_steps : ℕ
  step : ℕ
  alphas : List ℚ
  ramp_steps : Option ℕ
deriving DecidableEq

/-- Embedding of `MasterReplicaExchangeRunner.__init__`: sets `step = 1`,
stores the configuration and runs `_setup_alphas`; construction fails
(`none`) exactly when `_setup_alphas` divides by zero. -/
def init (n_replicas max_steps : ℕ) (ramp_steps : Option ℕ) :
    Option MasterReplicaExchangeRunner :=
  match _setup_alphas n_replicas with
  | none => none
  | some a =>
      some { n_replicas := n_replicas, max_steps := max_steps, step := 1,
             alphas := a, ramp_steps := ramp_steps }

/-- Embedding of `MasterReplicaExchangeRunner._compute_ramp_weight` as a
function of the two fields it reads (`self._ramp_steps`, `self.step`):
`1.0` if no ramp is configured or `step > ramp_steps`, else
`float(self.step + 1) / float(self._ramp_steps)`.  The division is only ever
reached with `step ≤ ramp_steps`; every caller in the repository has
`step ≥ 1`, so the divisor is then positive. -/
def _compute_ramp_weight (ramp_steps : Option ℕ) (step : ℕ) : ℚ :=
  match ramp_steps with
  | none => 1
  | some r => if step > r then 1 else ((step : ℚ) + 1) / (r : ℚ)

/-- Embedding of the static method
`MasterReplicaExchangeRunner._compute_energies`: the loop
`for state in states: my_energies.append(system_runner.get_energy(state))`
is a map of `get_energy` over the state list. -/
def _compute_energies {π ε E : Type} (get_energy : SystemState π ε → E)
    (states : List (SystemState π ε)) : List E :=
  states.map get_energy

/-- Embedding of the static method
`MasterReplicaExchangeRunner._permute_states`.  The Python code snapshots
`old_coords`/`old_energy` and then, for `i, index` in
`enumerate(permutation_matrix)`, assigns
`states[i].positions = old_coords[index]` and
`states[i].energy = old_energy[index]`.  The list accesses performed are
exactly: writes to `states[i]` for `i < len(permutation_matrix)` and reads of
`old_coords[index]`/`old_energy[index]`; an out-of-range access raises
`IndexError`, modelled as `none` (negative indices do not arise: permutation
entries are modelled as `ℕ`).  When all accesses are in range, slot `i`
receives the old positions/energy of slot `permutation_matrix[i]` for
`i < len(permutation_matrix)` and slots past the permutation are left
untouched. -/
def _permute_states {π ε : Type} (permutation_matrix : List ℕ)
    (states : List (SystemState π ε)) : Option (List (SystemState π ε)) :=
  let old_coords := states.map (fun s => s.positions)
  let old_energy := states.map (fun s => s.energy)
  if permutation_matrix.length ≤ states.length ∧
      ∀ j ∈ permutation_matrix, j < states.length then
    some (List.ofFn (fun i : Fin states.length =>
      if hi : (i : ℕ) < permutation_matrix.length then
        { positions :=
            old_coords.getD (permutation_matrix.get ⟨i, hi⟩)
              (states.get i).positions,
          energy :=
            old_energy.getD (permutation_matrix.get ⟨i, hi⟩)
              (states.get i).energy }
      else states.get i))
  else none

/-! ### Ramp weight (claims C3, C4) -/

/-- C3 (counterexample): the claim that the ramp weight lies in `[0, 1]` for
every configured `ramp_steps ≥ 1` and every step `1 ≤ step ≤ max_steps` fails
at `ramp_steps = 1`, `step = 1` (a run with `max_steps = 1`): the weight is
`(1 + 1) / 1 = 2 > 1`. -/
theorem ramp_weight_exceeds_one_at_boundary :
    _compute_ramp_weight (some 1) 1 = 2 ∧
      ¬ (_compute_ramp_weight (some 1) 1 ≤ 1) := by
  norm_num [_compute_ramp_weight]

/-- C3 (amended): for `ramp_steps ≥ 1` and `step ≥ 1`, the ramp weight lies
in `[0, 1]` for every step other than `step = ramp_steps`; at
`step = ramp_steps` it equals `(ramp_steps + 1) / ramp_steps`, which exceeds
`1`. -/
theorem ramp_weight_unit_interval_amended (r step : ℕ) (hr : 1 ≤ r)
    (hs : 1 ≤ step) :
    (step ≠ r → 0 ≤ _compute_ramp_weight (some r) step ∧
      _compute_ramp_weight (some r) step ≤ 1) ∧
    (step = r → _compute_ramp_weight (some r) step = ((r : ℚ) + 1) / r) := by
  constructor
  · intro hne
    by_cases h : step > r
    · simp [_compute_ramp_weight, h]
    · have hlt : step < r := by omega
      have hr0 : (0 : ℚ) < (r : ℚ) := by exact_mod_cast hr
      have hle : (step : ℚ) + 1 ≤ (r : ℚ) := by
        exact_mod_cast (by omega : step + 1 ≤ r)
      simp only [_compute_ramp_weight, h, if_false]
      constructor
      · positivity
      · rw [div_le_one hr0]; linarith
  · intro he
    subst he
    simp [_compute_ramp_weight]

/-- C3 (witness for the amended theorem) at `ramp_steps = 10`, `step = 5`. -/
theorem ramp_weight_unit_interval_amended_witness :
    1 ≤ 10 ∧ 1 ≤ 5 ∧
    ((5 ≠ 10 → 0 ≤ _compute_ramp_weight (some 10) 5 ∧
      _compute_ramp_weight (some 10) 5 ≤ 1) ∧
    (5 = 10 → _compute_ramp_weight (some 10) 5 = ((10 : ℚ) + 1) / 10)) :=
  ⟨by norm_num, by norm_num,
    ramp_weight_unit_interval_amended 10 5 (by norm_num) (by norm_num)⟩

/-- C4: the ramp weight is exactly `1` when no ramp is configured or when
`step > ramp_steps`, and `(step + 1) / ramp_steps` when configured and
`step ≤ ramp_steps`; in particular at `ramp_steps = 10`, `step = 5` it is
`6/10`.  The hypothesis `1 ≤ step` reflects that the coordinator only calls
this with step counters starting at `1`. -/
theorem ramp_weight_formula (r step : ℕ) (hs : 1 ≤ step) :
    _compute_ramp_weight none step = 1 ∧
    (step > r → _compute_ramp_weight (some r) step = 1) ∧
    (step ≤ r → _compute_ramp_weight (some r) step = ((step : ℚ) + 1) / r) ∧
    _compute_ramp_weight (some 10) 5 = 6 / 10 := by
  refine ⟨rfl, fun h => by simp [_compute_ramp_weight, h],
    fun h => ?_, by norm_num [_compute_ramp_weight]⟩
  simp [_compute_ramp_weight, Nat.not_lt.mpr h]

/-- C4 (witness) at `ramp_steps = 10`, `step = 5`. -/
theorem ramp_weight_formula_witness :
    1 ≤ 5 ∧
    (_compute_ramp_weight none 5 = 1 ∧
    (5 > 10 → _compute_ramp_weight (some 10) 5 = 1) ∧
    (5 ≤ 10 → _compute_ramp_weight (some 10) 5 = ((5 : ℚ) + 1) / 10) ∧
    _compute_ramp_weight (some 10) 5 = 6 / 10) :=
  ⟨by norm_num, ramp_weight_formula 10 5 (by norm_num)⟩

/-! ### Ladder initialization (claims C7, C9) -/

/-- C7 (counterexample): the claim that construction fails for every
`n_replicas < 2` is false: at `n_replicas = 0` the divisor is `0 - 1 = -1`,
no division by zero occurs, and construction succeeds (with an empty alphas
list). -/
theorem init_succeeds_at_zero_replicas :
    (0 : ℕ) < 2 ∧ init 0 5 none ≠ none := by
  have h0 : ((0 : ℚ) - 1) ≠ 0 := by norm_num
  constructor
  · norm_num
  · simp [init, _setup_alphas, h0]

/-- C7 (amended): construction of the coordinator fails fatally (division by
zero in `_setup_alphas`) exactly when `n_replicas = 1`; for every other
replica count, including `0`, construction succeeds. -/
theorem init_fails_iff_one_replica (n K : ℕ) (rs : Option ℕ) :
    init n K rs = none ↔ n = 1 := by
  unfold init _setup_alphas
  by_cases h : ((n : ℚ) - 1) = 0
  · have hn : n = 1 := by
      have h1 : (n : ℚ) = 1 := by linarith
      exact_mod_cast h1
    simp [h, hn]
  · have hn : n ≠ 1 := by
      intro e
      subst e
      simp at h
    simp [h, hn]

/-- C9: for `n ≥ 2`, `_setup_alphas` succeeds and yields exactly `n` values
with `alphas[i] = i / (n - 1)`, so `alphas[0] = 0`, `alphas[n-1] = 1` and
consecutive values are spaced by `1 / (n - 1)`. -/
theorem setup_alphas_evenly_spaced (n : ℕ) (hn : 2 ≤ n) :
    ∃ a, _setup_alphas n = some a ∧ a.length = n ∧
      (∀ i, i < n → a.getD i 0 = (i : ℚ) / ((n : ℚ) - 1)) ∧
      a.getD 0 0 = 0 ∧ a.getD (n - 1) 0 = 1 ∧
      (∀ i, i + 1 < n →
        a.getD (i + 1) 0 - a.getD i 0 = 1 / ((n : ℚ) - 1)) := by
  have hne : ((n : ℚ) - 1) ≠ 0 := by
    have h2 : (2 : ℚ) ≤ (n : ℚ) := by exact_mod_cast hn
    intro h0
    linarith
  have hget : ∀ i, i < n →
      ((List.range n).map (fun i : ℕ => (i : ℚ) * (1 / ((n : ℚ) - 1)))).getD i 0
        = (i : ℚ) * (1 / ((n : ℚ) - 1)) := by
    intro i hi
    rw [List.getD_eq_getElem _ _ (by simpa using hi)]
    simp
  refine ⟨(List.range n).map (fun i : ℕ => (i : ℚ) * (1 / ((n : ℚ) - 1))),
    by simp [_setup_alphas, hne], by simp, ?_, ?_, ?_, ?_⟩
  · intro i hi
    rw [hget i hi, mul_one_div]
  · rw [hget 0 (by omega)]
    simp
  · rw [hget (n - 1) (by omega)]
    have hcast : (((n - 1 : ℕ)) : ℚ) = (n : ℚ) - 1 := by
      have h1 : 1 ≤ n := by omega
      push_cast [h1]
      ring
    rw [hcast, mul_one_div, div_self hne]
  · intro i hi
    rw [hget (i + 1) hi, hget i (by omega)]
    push_cast
    ring

/-- C9 (witness) at `n = 3`. -/
theorem setup_alphas_evenly_spaced_witness :
    2 ≤ 3 ∧
    (∃ a, _setup_alphas 3 = some a ∧ a.length = 3 ∧
      (∀ i, i < 3 → a.getD i 0 = (i : ℚ) / ((3 : ℚ) - 1)) ∧
      a.getD 0 0 = 0 ∧ a.getD (3 - 1) 0 = 1 ∧
      (∀ i, i + 1 < 3 →
        a.getD (i + 1) 0 - a.getD i 0 = 1 / ((3 : ℚ) - 1))) :=
  ⟨by norm_num, setup_alphas_evenly_spaced 3 (by norm_num)⟩

/-! ### State permutation (claims C5, C6) -/

/-- Unfolding of `_permute_states` when every list access is in range. -/
lemma permute_eq {π ε : Type} (perm : List ℕ) (states : List (SystemState π ε))
    (hlen : perm.length ≤ states.length) (hmem : ∀ j ∈ perm, j < states.length) :
    _permute_states perm states = some (List.ofFn (fun i : Fin states.length =>
      if hi : (i : ℕ) < perm.length then
        { positions := (states.map (fun s => s.positions)).getD (perm.get ⟨i, hi⟩)
            (states.get i).positions,
          energy := (states.map (fun s => s.energy)).getD (perm.get ⟨i, hi⟩)
            (states.get i).energy }
      else states.get i)) := by
  unfold _permute_states
  rw [if_pos ⟨hlen, hmem⟩]

/-- A successful `_permute_states` preserves the length of the state list. -/
lemma permute_len {π ε : Type} (perm : List ℕ) (states out : List (SystemState π ε))
    (hlen : perm.length ≤ states.length) (hmem : ∀ j ∈ perm, j < states.length)
    (hout : _permute_states perm states = some out) : out.length = states.length := by
  rw [permute_eq perm states hlen hmem] at hout
  cases hout
  simp

/-- Elementwise description of a successful `_permute_states`: slot `i` of the
output carries the positions and energy that were at slot `perm[i]` of the
input. -/
lemma permute_getD {π ε : Type} (perm : List ℕ) (states out : List (SystemState π ε))
    (d : SystemState π ε)
    (hlen : perm.length = states.length) (hmem : ∀ j ∈ perm, j < states.length)
    (hout : _permute_states perm states = some out) (i : ℕ) (hi : i < states.length) :
    out.getD i d = { positions := (states.getD (perm.getD i 0) d).positions,
                     energy := (states.getD (perm.getD i 0) d).energy } := by
  rw [permute_eq perm states (le_of_eq hlen) hmem] at hout
  cases hout
  have hip : i < perm.length := by omega
  have hj : perm.getD i 0 < states.length := by
    have h : perm.getD i 0 = perm[i] := List.getD_eq_getElem perm 0 hip
    rw [h]
    exact hmem _ (List.getElem_mem hip)
  rw [List.getD_eq_getElem _ _ (by simpa using hi)]
  rw [List.getElem_ofFn]
  rw [dif_pos hip]
  simp only [List.get_eq_getElem, List.getD_eq_getElem perm 0 hip]
  have hj2 : perm[i] < states.length := List.getD_eq_getElem perm 0 hip ▸ hj
  rw [List.getD_eq_getElem states d hj2]
  simp [List.getElem_map, List.getElem?_eq_getElem hj2]

/-- Applying `_permute_states` with the identity permutation returns the state
list unchanged. -/
lemma permute_id {π ε : Type} (states : List (SystemState π ε)) :
    _permute_states (List.range states.length) states = some states := by
  rw [permute_eq _ _ (by simp) (by simp)]
  congr 1
  apply List.ext_getElem
  · simp
  · intro i h1 h2
    rw [List.getElem_ofFn]
    rw [dif_pos (by simpa using h2)]
    simp [List.getElem_map, List.getElem?_eq_getElem h2, List.getElem_range]

/-- Applying `_permute_states` with `perm` and then with a left inverse of
`perm` restores the original state list. -/
lemma permute_roundtrip {π ε : Type} (states s1 : List (SystemState π ε))
    (perm pinv : List ℕ)
    (hlp : perm.length = states.length) (hmp : ∀ j ∈ perm, j < states.length)
    (hli : pinv.length = states.length) (hmi : ∀ j ∈ pinv, j < states.length)
    (hinv : ∀ i, i < states.length → perm.getD (pinv.getD i 0) 0 = i)
    (h1 : _permute_states perm states = some s1) :
    _permute_states pinv s1 = some states := by
  have hs1 : s1.length = states.length :=
    permute_len perm states s1 (le_of_eq hlp) hmp h1
  rw [permute_eq pinv s1 (by omega) (fun j hj => by rw [hs1]; exact hmi j hj)]
  congr 1
  apply List.ext_getElem
  · simp [hs1]
  · intro i hh1 hh2
    have hi : i < states.length := hh2
    have hipinv : i < pinv.length := by omega
    have hj : pinv[i] < states.length := by
      have h := hmi _ (List.getElem_mem hipinv)
      omega
    have hjd : pinv.getD i 0 = pinv[i] := List.getD_eq_getElem pinv 0 hipinv
    rw [List.getElem_ofFn]
    rw [dif_pos (by simpa using hipinv)]
    have hgd := permute_getD perm states s1 (states.get ⟨i, hi⟩) hlp hmp h1 pinv[i] hj
    have hjj : perm.getD pinv[i] 0 = i := by
      have h := hinv i hi
      rwa [hjd] at h
    rw [hjj] at hgd
    have hs1j : s1[pinv[i]] =
        { positions := (states.getD i (states.get ⟨i, hi⟩)).positions,
          energy := (states.getD i (states.get ⟨i, hi⟩)).energy } := by
      rw [← hgd, List.getD_eq_getElem s1 _ (by omega)]
    simp only [List.get_eq_getElem, List.getD_eq_getElem _ _ (by simpa using hj)]
    rw [List.getD_eq_getElem states _ hi] at hs1j
    have hb : pinv[i] < s1.length := by omega
    rw [List.getD_eq_getElem (s1.map (fun s => s.positions)) _ (by simpa using hb),
        List.getD_eq_getElem (s1.map (fun s => s.energy)) _ (by simpa using hb)]
    simp [List.getElem_map, hs1j]

/-- C6: for every state list and every permutation vector of the same length
with entries in range, `_permute_states` succeeds and slot `i` of the result
holds exactly the positions and energy that were at slot `perm[i]` before the
call. -/
theorem permute_states_slot_contents {π ε : Type} (perm : List ℕ)
    (states : List (SystemState π ε)) (d : SystemState π ε)
    (hlen : perm.length = states.length) (hmem : ∀ j ∈ perm, j < states.length) :
    ∃ out, _permute_states perm states = some out ∧ out.length = states.length ∧
      ∀ i, i < states.length →
        (out.getD i d).positions = (states.getD (perm.getD i 0) d).positions ∧
        (out.getD i d).energy = (states.getD (perm.getD i 0) d).energy := by
  obtain ⟨out, hout⟩ : ∃ out, _permute_states perm states = some out := by
    rw [permute_eq perm states (le_of_eq hlen) hmem]
    exact ⟨_, rfl⟩
  refine ⟨out, hout, permute_len perm states out (le_of_eq hlen) hmem hout, ?_⟩
  intro i hi
  rw [permute_getD perm states out d hlen hmem hout i hi]
  exact ⟨rfl, rfl⟩

/-- C6 (witness): four states, permutation `[2, 0, 3, 1]`; in particular slot
`0` of the result holds the positions/energy previously at slot `2`. -/
theorem permute_states_slot_contents_witness :
    ([2, 0, 3, 1] : List ℕ).length =
      ([⟨10, 20⟩, ⟨11, 21⟩, ⟨12, 22⟩, ⟨13, 23⟩] : List (SystemState ℕ ℕ)).length ∧
    (∀ j ∈ ([2, 0, 3, 1] : List ℕ),
      j < ([⟨10, 20⟩, ⟨11, 21⟩, ⟨12, 22⟩, ⟨13, 23⟩] : List (SystemState ℕ ℕ)).length) ∧
    (∃ out, _permute_states [2, 0, 3, 1]
        ([⟨10, 20⟩, ⟨11, 21⟩, ⟨12, 22⟩, ⟨13, 23⟩] : List (SystemState ℕ ℕ)) = some out ∧
      out.length =
        ([⟨10, 20⟩, ⟨11, 21⟩, ⟨12, 22⟩, ⟨13, 23⟩] : List (SystemState ℕ ℕ)).length ∧
      ∀ i, i < ([⟨10, 20⟩, ⟨11, 21⟩, ⟨12, 22⟩, ⟨13, 23⟩] : List (SystemState ℕ ℕ)).length →
        (out.getD i ⟨99, 99⟩).positions =
          (([⟨10, 20⟩, ⟨11, 21⟩, ⟨12, 22⟩, ⟨13, 23⟩] : List (SystemState ℕ ℕ)).getD
            (([2, 0, 3, 1] : List ℕ).getD i 0) ⟨99, 99⟩).positions ∧
        (out.getD i ⟨99, 99⟩).energy =
          (([⟨10, 20⟩, ⟨11, 21⟩, ⟨12, 22⟩, ⟨13, 23⟩] : List (SystemState ℕ ℕ)).getD
            (([2, 0, 3, 1] : List ℕ).getD i 0) ⟨99, 99⟩).energy) :=
  ⟨by decide, by decide,
    permute_states_slot_contents [2, 0, 3, 1] _ ⟨99, 99⟩ (by decide) (by decide)⟩

/-- C5: applying `_permute_states` with the identity permutation leaves every
state's positions and energy unchanged, and applying a permutation followed by
its inverse restores the original state list (round-trip law). -/
theorem permute_states_identity_and_roundtrip {π ε : Type}
    (states : List (SystemState π ε)) (perm pinv : List ℕ)
    (hlp : perm.length = states.length) (hmp : ∀ j ∈ perm, j < states.length)
    (hli : pinv.length = states.length) (hmi : ∀ j ∈ pinv, j < states.length)
    (hinv : ∀ i, i < states.length → perm.getD (pinv.getD i 0) 0 = i) :
    _permute_states (List.range states.length) states = some states ∧
    ∃ s1, _permute_states perm states = some s1 ∧
      _permute_states pinv s1 = some states := by
  refine ⟨permute_id states, ?_⟩
  obtain ⟨s1, h1⟩ : ∃ s1, _permute_states perm states = some s1 := by
    rw [permute_eq perm states (le_of_eq hlp) hmp]
    exact ⟨_, rfl⟩
  exact ⟨s1, h1, permute_roundtrip states s1 perm pinv hlp hmp hli hmi hinv h1⟩

/-- C5 (witness): four states, `perm = [2, 0, 3, 1]` with inverse
`[1, 3, 0, 2]`. -/
theorem permute_states_identity_and_roundtrip_witness :
    ([2, 0, 3, 1] : List ℕ).length =
      ([⟨10, 20⟩, ⟨11, 21⟩, ⟨12, 22⟩, ⟨13, 23⟩] : List (SystemState ℕ ℕ)).length ∧
    (∀ j ∈ ([2, 0, 3, 1] : List ℕ),
      j < ([⟨10, 20⟩, ⟨11, 21⟩, ⟨12, 22⟩, ⟨13, 23⟩] : List (SystemState ℕ ℕ)).length) ∧
    ([1, 3, 0, 2] : List ℕ).length =
      ([⟨10, 20⟩, ⟨11, 21⟩, ⟨12, 22⟩, ⟨13, 23⟩] : List (SystemState ℕ ℕ)).length ∧
    (∀ j ∈ ([1, 3, 0, 2] : List ℕ),
      j < ([⟨10, 20⟩, ⟨11, 21⟩, ⟨12, 22⟩, ⟨13, 23⟩] : List (SystemState ℕ ℕ)).length) ∧
    (∀ i, i < ([⟨10, 20⟩, ⟨11, 21⟩, ⟨12, 22⟩, ⟨13, 23⟩] : List (SystemState ℕ ℕ)).length →
      ([2, 0, 3, 1] : List ℕ).getD (([1, 3, 0, 2] : List ℕ).getD i 0) 0 = i) ∧
    (_permute_states
        (List.range ([⟨10, 20⟩, ⟨11, 21⟩, ⟨12, 22⟩, ⟨13, 23⟩] :
          List (SystemState ℕ ℕ)).length)
        ([⟨10, 20⟩, ⟨11, 21⟩, ⟨12, 22⟩, ⟨13, 23⟩] : List (SystemState ℕ ℕ)) =
      some [⟨10, 20⟩, ⟨11, 21⟩, ⟨12, 22⟩, ⟨13, 23⟩] ∧
    ∃ s1, _permute_states [2, 0, 3, 1]
        ([⟨10, 20⟩, ⟨11, 21⟩, ⟨12, 22⟩, ⟨13, 23⟩] : List (SystemState ℕ ℕ)) = some s1 ∧
      _permute_states [1, 3, 0, 2] s1 =
        some [⟨10, 20⟩, ⟨11, 21⟩, ⟨12, 22⟩, ⟨13, 23⟩]) :=
  ⟨by decide, by decide, by decide, by decide, by decide,
    permute_states_identity_and_roundtrip _ [2, 0, 3, 1] [1, 3, 0, 2]
      (by decide) (by decide) (by decide) (by decide) (by decide)⟩

/-! ### The run loop (claims C1, C2, C8, C10) -/

/-- One observable action of `MasterReplicaExchangeRunner.run`: each call the
coordinator makes to the communicator, the system runner or the store is
recorded, in program order, together with the arguments the claims are about
(the step tags of the store calls, the two arguments of `set_alpha`, and the
step counter carried by the coordinator object handed to
`save_remd_runner`).  `inc_step` marks the internal `self._step += 1`
assignment, carrying the new counter value, so that ordering relative to the
increment is expressible. -/
inductive Event where
  | load_states (stage : ℕ)
  | set_alpha (alpha : ℚ) (ramp_weight : ℚ)
  | broadcast_alphas
  | barrier
  | broadcast_states
  | run_min
  | run_md
  | gather_states
  | broadcast_states_for_energy
  | gather_energies
  | compute_exchanges
  | reseed (step : ℕ)
  | save_states (step : ℕ)
  | append_traj (step : ℕ)
  | save_alphas (step : ℕ)
  | save_permutation_vector (step : ℕ)
  | save_energy_matrix (step : ℕ)
  | save_acceptance_probabilities (step : ℕ)
  | save_data_store
  | inc_step (new_step : ℕ)
  | save_remd_runner (runner_step : ℕ)
  | backup (step : ℕ)
deriving DecidableEq

/-- How a run can abort: a failing `assert` at the top of `run`, a Python
`IndexError` (out-of-range permutation entry in `_permute_states`, or
`states[0]` on an empty list in `append_traj`), or exhaustion of the fuel
that bounds the loop (an artifact of the embedding; `run` always supplies
enough fuel, see `runAux_spec`). -/
inductive RunError where
  | assertion_error
  | index_error
  | out_of_fuel
deriving DecidableEq

/-- The external collaborators of `run` — communicator, system runner, store,
exchange ladder and adaptor — modelled as pure functions (the spec treats
each as a black-box contract).  `π`/`ε` are the position and energy payload
types of the replica states, `E` the type of a local energy row and `M` the
type of the gathered energy matrix. -/
structure Env (π ε E M : Type) where
  comm_n_replicas : ℕ
  store_n_replicas : ℕ
  load_states : ℕ → List (SystemState π ε)
  adapt : List ℚ → ℕ → List ℚ
  get_acceptance_probabilities : ℕ → List ℚ
  broadcast_states_to_slaves : List (SystemState π ε) → SystemState π ε
  minimize_then_run : SystemState π ε → SystemState π ε
  run_md : SystemState π ε → SystemState π ε
  gather_states_from_slaves : SystemState π ε → List (SystemState π ε)
  get_energy : SystemState π ε → E
  gather_energies_from_slaves : List E → M
  compute_exchanges : M → List ℕ

/-- Modelled from the spec: `NullReseeder` (from `meld.remd.reseed`, whose
source is not part of this repository snapshot) is the default reseed hook
installed by `__init__`; per the spec its behavior is a no-op, so `reseed`
returns the states unchanged. -/
def null_reseeder_reseed {π ε : Type} (step : ℕ)
    (states : List (SystemState π ε)) : List (SystemState π ε) :=
  states

/-- One iteration of the body of the `while self._step <= self._max_steps`
loop of `MasterReplicaExchangeRunner.run`, following the source line by line:
compute the ramp weight, `set_alpha(0., ramp_weight)`, adapt and broadcast
the alphas, barrier, broadcast states, barrier, advance dynamics
(minimize-then-run on step 1, plain run otherwise), gather, barrier,
broadcast for energy calculation, barrier, compute and gather energies,
barrier, ask the ladder for a permutation, `_permute_states`, reseed, the six
step-tagged store saves plus `save_data_store`, then `self._step += 1`
followed by `save_remd_runner(self)` and `backup(self.step - 1)`.  Returns
the iteration's event trace and either the updated coordinator plus states,
or the error that aborted the iteration. -/
def MasterReplicaExchangeRunner.runStep {π ε E M : Type} (env : Env π ε E M)
    (self : MasterReplicaExchangeRunner) (states : List (SystemState π ε)) :
    List Event ×
      Except RunError (MasterReplicaExchangeRunner × List (SystemState π ε)) :=
  let ramp_weight := _compute_ramp_weight self.ramp_steps self.step
  let self1 : MasterReplicaExchangeRunner :=
    { self with alphas := env.adapt self.alphas self.step }
  let my_state := env.broadcast_states_to_slaves states
  let my_state1 := if self.step = 1 then env.minimize_then_run my_state
    else env.run_md my_state
  let states1 := env.gather_states_from_slaves my_state1
  let my_energies := _compute_energies env.get_energy states1
  let energies := env.gather_energies_from_slaves my_energies
  let permutation_vector := env.compute_exchanges energies
  let preTrace : List Event :=
    [Event.set_alpha 0 ramp_weight, Event.broadcast_alphas, Event.barrier,
     Event.broadcast_states, Event.barrier,
     if self.step = 1 then Event.run_min else Event.run_md,
     Event.gather_states, Event.barrier,
     Event.broadcast_states_for_energy, Event.barrier,
     Event.gather_energies, Event.barrier, Event.compute_exchanges]
  match _permute_states permutation_vector states1 with
  | none => (preTrace, Except.error RunError.index_error)
  | some states2 =>
    let states3 := null_reseeder_reseed self.step states2
    match states3 with
    | [] =>
      (preTrace ++ [Event.reseed self.step, Event.save_states self.step],
       Except.error RunError.index_error)
    | s0 :: rest =>
      let self2 : MasterReplicaExchangeRunner :=
        { self1 with step := self1.step + 1 }
      let iterTrace := preTrace ++
        [Event.reseed self.step, Event.save_states self.step,
         Event.append_traj self.step, Event.save_alphas self.step,
         Event.save_permutation_vector self.step,
         Event.save_energy_matrix self.step,
         Event.save_acceptance_probabilities self.step,
         Event.save_data_store, Event.inc_step self2.step,
         Event.save_remd_runner self2.step, Event.backup (self2.step - 1)]
      (iterTrace, Except.ok (self2, s0 :: rest))

/-- The `while self._step <= self._max_steps` loop of
`MasterReplicaExchangeRunner.run`, iterated with an explicit fuel parameter.
The fuel only bounds the number of iterations; `run` supplies
`max_steps + 1 - step`, which is always sufficient since the step counter
increases by one per iteration (see `runAux_spec`). -/
def MasterReplicaExchangeRunner.runAux {π ε E M : Type} (env : Env π ε E M) :
    ℕ → MasterReplicaExchangeRunner → List (SystemState π ε) →
    List Event × Except RunError MasterReplicaExchangeRunner
  | fuel, self, states =>
    if self.step ≤ self.max_steps then
      match fuel with
      | 0 => ([], Except.error RunError.out_of_fuel)
      | fuel + 1 =>
        match MasterReplicaExchangeRunner.runStep env self states with
        | (tr, Except.error e) => (tr, Except.error e)
        | (tr, Except.ok (self2, states3)) =>
          let r := MasterReplicaExchangeRunner.runAux env fuel self2 states3
          (tr ++ r.1, r.2)
    else ([], Except.ok self)

/-- Embedding of `MasterReplicaExchangeRunner.run`: the two replica-count
`assert`s (communicator first, then store), the initial
`store.load_states(stage=self.step - 1)`, then the step loop.  A failing
assert aborts before any event is emitted. -/
def MasterReplicaExchangeRunner.run {π ε E M : Type}
    (self : MasterReplicaExchangeRunner) (env : Env π ε E M) :
    List Event × Except RunError MasterReplicaExchangeRunner :=
  if self.n_replicas = env.comm_n_replicas then
    if self.n_replicas = env.store_n_replicas then
      let states := env.load_states (self.step - 1)
      let r := MasterReplicaExchangeRunner.runAux env
        (self.max_steps + 1 - self.step) self states
      (Event.load_states (self.step - 1) :: r.1, r.2)
    else ([], Except.error RunError.assertion_error)
  else ([], Except.error RunError.assertion_error)

/-- The event trace of one successful loop iteration that completes step `k`:
the collective/dynamics phase, then the step-`k` tagged checkpoint writes and
flush, then the increment to `k + 1`, then `save_remd_runner` (persisting the
already-incremented counter `k + 1`) and `backup k`. -/
def expectedIter (rs : Option ℕ) (k : ℕ) : List Event :=
  [Event.set_alpha 0 (_compute_ramp_weight rs k), Event.broadcast_alphas,
   Event.barrier, Event.broadcast_states, Event.barrier,
   if k = 1 then Event.run_min else Event.run_md,
   Event.gather_states, Event.barrier, Event.broadcast_states_for_energy,
   Event.barrier, Event.gather_energies, Event.barrier, Event.compute_exchanges,
   Event.reseed k, Event.save_states k, Event.append_traj k, Event.save_alphas k,
   Event.save_permutation_vector k, Event.save_energy_matrix k,
   Event.save_acceptance_probabilities k, Event.save_data_store,
   Event.inc_step (k + 1), Event.save_remd_runner (k + 1), Event.backup k]

/-- The expected trace of `c` consecutive successful iterations starting at
step `s`. -/
def tracePlan (rs : Option ℕ) : ℕ → ℕ → List Event
  | _, 0 => []
  | s, c + 1 => expectedIter rs s ++ tracePlan rs (s + 1) c

/-- The contracts the spec assumes of the external collaborators: replica
counts agree with `n ≥ 1`, the store and the gather collective return `n`
states, and the exchange policy returns a permutation vector of length `n`
with entries in `{0..n-1}` (the spec's bijection invariant, of which only
this part is needed). -/
structure EnvValid {π ε E M : Type} (env : Env π ε E M) (n : ℕ) : Prop where
  comm : env.comm_n_replicas = n
  store : env.store_n_replicas = n
  npos : 1 ≤ n
  load_len : ∀ s, (env.load_states s).length = n
  gather_len : ∀ x, (env.gather_states_from_slaves x).length = n
  perm_len : ∀ m, (env.compute_exchanges m).length = n
  perm_mem : ∀ m, ∀ j ∈ env.compute_exchanges m, j < n

/-- Under a valid environment, one loop iteration succeeds, emits exactly
`expectedIter`, updates the alphas via the adaptor, increments the step by
one, and hands over `n` states. -/
lemma runStep_spec {π ε E M : Type} (env : Env π ε E M) (n : ℕ)
    (henv : EnvValid env n) (self : MasterReplicaExchangeRunner)
    (states : List (SystemState π ε)) (hlen : states.length = n) :
    ∃ states3 : List (SystemState π ε), states3.length = n ∧
      MasterReplicaExchangeRunner.runStep env self states =
        (expectedIter self.ramp_steps self.step,
         Except.ok ({ self with
                      alphas := env.adapt self.alphas self.step
                      step := self.step + 1 }, states3)) := by
  simp only [MasterReplicaExchangeRunner.runStep]
  set ms1 := (if self.step = 1
    then env.minimize_then_run (env.broadcast_states_to_slaves states)
    else env.run_md (env.broadcast_states_to_slaves states)) with hms1
  set states1 := env.gather_states_from_slaves ms1 with hstates1
  set pv := env.compute_exchanges (env.gather_energies_from_slaves
    (_compute_energies env.get_energy states1)) with hpv
  have h1 : states1.length = n := henv.gather_len ms1
  have hpl : pv.length = states1.length := by rw [henv.perm_len, h1]
  have hpm : ∀ j ∈ pv, j < states1.length := by
    intro j hj
    rw [h1]
    exact henv.perm_mem _ j hj
  obtain ⟨out, hout⟩ : ∃ out, _permute_states pv states1 = some out := by
    rw [permute_eq pv states1 (le_of_eq hpl) hpm]
    exact ⟨_, rfl⟩
  have holen : out.length = n := by
    rw [permute_len pv states1 out (le_of_eq hpl) hpm hout, h1]
  obtain ⟨s0, rest, rfl⟩ : ∃ s0 rest, out = s0 :: rest := by
    cases out with
    | nil =>
      simp at holen
      have := henv.npos
      omega
    | cons a b => exact ⟨a, b, rfl⟩
  refine ⟨s0 :: rest, holen, ?_⟩
  rw [hout]
  simp [null_reseeder_reseed, expectedIter]

/-- Under a valid environment, the loop runs from the current step to
`max_steps` inclusive, emits exactly the per-iteration traces in order, and
returns the coordinator with step counter `max step (max_steps + 1)` (i.e.
`max_steps + 1` whenever the loop body executed at least once). -/
lemma runAux_spec {π ε E M : Type} (env : Env π ε E M) (n : ℕ)
    (henv : EnvValid env n) :
    ∀ fuel (self : MasterReplicaExchangeRunner)
      (states : List (SystemState π ε)),
      states.length = n → self.max_steps + 1 - self.step ≤ fuel →
      ∃ a, MasterReplicaExchangeRunner.runAux env fuel self states =
        (tracePlan self.ramp_steps self.step (self.max_steps + 1 - self.step),
         Except.ok { n_replicas := self.n_replicas, max_steps := self.max_steps,
                     step := max self.step (self.max_steps + 1), alphas := a,
                     ramp_steps := self.ramp_steps }) := by
  intro fuel
  induction fuel with
  | zero =>
    intro self states hlen hfuel
    have hstep : ¬ self.step ≤ self.max_steps := by omega
    have h0 : self.max_steps + 1 - self.step = 0 := by omega
    have hmax : max self.step (self.max_steps + 1) = self.step := by omega
    refine ⟨self.alphas, ?_⟩
    unfold MasterReplicaExchangeRunner.runAux
    rw [if_neg hstep, h0, hmax]
    rfl
  | succ fuel ih =>
    intro self states hlen hfuel
    by_cases hstep : self.step ≤ self.max_steps
    · obtain ⟨states3, h3len, hrs⟩ := runStep_spec env n henv self states hlen
      obtain ⟨a, hr⟩ := ih
        { self with
          alphas := env.adapt self.alphas self.step
          step := self.step + 1 } states3 h3len
        (by show self.max_steps + 1 - (self.step + 1) ≤ fuel; omega)
      refine ⟨a, ?_⟩
      unfold MasterReplicaExchangeRunner.runAux
      rw [if_pos hstep]
      simp only [hrs, hr]
      have hc : self.max_steps + 1 - self.step
          = (self.max_steps + 1 - (self.step + 1)) + 1 := by omega
      rw [hc]
      simp only [tracePlan]
      have hmax2 : max (self.step + 1) (self.max_steps + 1)
          = max self.step (self.max_steps + 1) := by omega
      simp [hmax2]
    · have h0 : self.max_steps + 1 - self.step = 0 := by omega
      have hmax : max self.step (self.max_steps + 1) = self.step := by omega
      refine ⟨self.alphas, ?_⟩
      unfold MasterReplicaExchangeRunner.runAux
      rw [if_neg hstep, h0, hmax]
      rfl

/-- A run from a freshly constructed coordinator under a valid environment:
both asserts pass, states are loaded from stage `0`, the loop executes steps
`1 .. K`, and the final coordinator has step counter `K + 1`. -/
lemma run_spec {π ε E M : Type} (env : Env π ε E M) (n K : ℕ) (rs : Option ℕ)
    (st : MasterReplicaExchangeRunner) (henv : EnvValid env n)
    (hinit : init n K rs = some st) :
    ∃ a, MasterReplicaExchangeRunner.run st env =
      (Event.load_states 0 :: tracePlan rs 1 K,
       Except.ok { n_replicas := n, max_steps := K, step := K + 1,
                   alphas := a, ramp_steps := rs }) := by
  obtain ⟨a0, hst⟩ : ∃ a0, st =
      { n_replicas := n
        max_steps := K
        step := 1
        alphas := a0
        ramp_steps := rs } := by
    unfold init at hinit
    cases h : _setup_alphas n with
    | none => rw [h] at hinit; cases hinit
    | some a0 => rw [h] at hinit; cases hinit; exact ⟨a0, rfl⟩
  subst hst
  obtain ⟨a, hr⟩ := runAux_spec env n henv (K + 1 - 1)
    { n_replicas := n, max_steps := K, step := 1, alphas := a0,
      ramp_steps := rs } (env.load_states 0) (henv.load_len 0) (le_refl _)
  unfold MasterReplicaExchangeRunner.run
  rw [if_pos (by simpa using henv.comm.symm),
    if_pos (by simpa using henv.store.symm)]
  simp only at hr
  simp only [hr]
  have hmax : max 1 (K + 1) = K + 1 := by omega
  simp [hmax]

/-- The step tags of selected events of a trace, in order. -/
def tagsOf (f : Event → Option ℕ) (tr : List Event) : List ℕ :=
  tr.filterMap f

/-- Selects `save_states` events. -/
def saveStatesTag : Event → Option ℕ
  | Event.save_states k => some k
  | _ => none

/-- Selects `append_traj` events. -/
def appendTrajTag : Event → Option ℕ
  | Event.append_traj k => some k
  | _ => none

/-- Selects `save_alphas` events. -/
def saveAlphasTag : Event → Option ℕ
  | Event.save_alphas k => some k
  | _ => none

/-- Selects `save_permutation_vector` events. -/
def savePermutationVectorTag : Event → Option ℕ
  | Event.save_permutation_vector k => some k
  | _ => none

/-- Selects `save_energy_matrix` events. -/
def saveEnergyMatrixTag : Event → Option ℕ
  | Event.save_energy_matrix k => some k
  | _ => none

/-- Selects `save_acceptance_probabilities` events. -/
def saveAcceptanceTag : Event → Option ℕ
  | Event.save_acceptance_probabilities k => some k
  | _ => none

/-- Selects `save_remd_runner` events, reporting the step counter stored in
the serialized coordinator. -/
def saveRemdTag : Event → Option ℕ
  | Event.save_remd_runner k => some k
  | _ => none

/-- Selects `save_data_store` (flush) events, one `0` per occurrence. -/
def dataStoreMark : Event → Option ℕ
  | Event.save_data_store => some 0
  | _ => none

lemma tagsOf_append (f : Event → Option ℕ) (l1 l2 : List Event) :
    tagsOf f (l1 ++ l2) = tagsOf f l1 ++ tagsOf f l2 :=
  List.filterMap_append l1 l2 f

/-- If an extractor selects exactly one tag `g k` out of each iteration's
trace, then over a run plan it selects the per-iteration tags in order. -/
lemma tagsOf_tracePlan (f : Event → Option ℕ) (g : ℕ → ℕ) (rs : Option ℕ)
    (hf : ∀ k, tagsOf f (expectedIter rs k) = [g k]) :
    ∀ s c, tagsOf f (tracePlan rs s c) = (List.range' s c).map g := by
  intro s c
  induction c generalizing s with
  | zero => simp [tracePlan, tagsOf]
  | succ c ih =>
    rw [show tracePlan rs s (c + 1) = expectedIter rs s ++ tracePlan rs (s + 1) c
        from rfl,
      tagsOf_append, hf s, ih (s + 1),
      show List.range' s (c + 1) = s :: List.range' (s + 1) c
        from List.range'_succ s c 1]
    simp

lemma saveStatesTag_iter (rs : Option ℕ) (k : ℕ) :
    tagsOf saveStatesTag (expectedIter rs k) = [k] := by
  by_cases h : k = 1 <;> simp [tagsOf, expectedIter, saveStatesTag, h]

lemma appendTrajTag_iter (rs : Option ℕ) (k : ℕ) :
    tagsOf appendTrajTag (expectedIter rs k) = [k] := by
  by_cases h : k = 1 <;> simp [tagsOf, expectedIter, appendTrajTag, h]

lemma saveAlphasTag_iter (rs : Option ℕ) (k : ℕ) :
    tagsOf saveAlphasTag (expectedIter rs k) = [k] := by
  by_cases h : k = 1 <;> simp [tagsOf, expectedIter, saveAlphasTag, h]

lemma savePermutationVectorTag_iter (rs : Option ℕ) (k : ℕ) :
    tagsOf savePermutationVectorTag (expectedIter rs k) = [k] := by
  by_cases h : k = 1 <;> simp [tagsOf, expectedIter, savePermutationVectorTag, h]

lemma saveEnergyMatrixTag_iter (rs : Option ℕ) (k : ℕ) :
    tagsOf saveEnergyMatrixTag (expectedIter rs k) = [k] := by
  by_cases h : k = 1 <;> simp [tagsOf, expectedIter, saveEnergyMatrixTag, h]

lemma saveAcceptanceTag_iter (rs : Option ℕ) (k : ℕ) :
    tagsOf saveAcceptanceTag (expectedIter rs k) = [k] := by
  by_cases h : k = 1 <;> simp [tagsOf, expectedIter, saveAcceptanceTag, h]

lemma saveRemdTag_iter (rs : Option ℕ) (k : ℕ) :
    tagsOf saveRemdTag (expectedIter rs k) = [k + 1] := by
  by_cases h : k = 1 <;> simp [tagsOf, expectedIter, saveRemdTag, h]

lemma dataStoreMark_iter (rs : Option ℕ) (k : ℕ) :
    tagsOf dataStoreMark (expectedIter rs k) = [0] := by
  by_cases h : k = 1 <;> simp [tagsOf, expectedIter, dataStoreMark, h]

lemma map_succ_range' : ∀ s c : ℕ,
    (List.range' s c).map (fun k => k + 1) = List.range' (s + 1) c := by
  intro s c
  induction c generalizing s with
  | zero => rfl
  | succ c ih =>
    rw [List.range'_succ s c 1, List.range'_succ (s + 1) c 1]
    simp [ih (s + 1)]

lemma range'_getLast (s c : ℕ) (hc : 1 ≤ c) :
    (List.range' s c).getLast? = some (s + c - 1) := by
  obtain ⟨d, rfl⟩ : ∃ d, c = d + 1 := ⟨c - 1, by omega⟩
  have h : List.range' s (d + 1) 1 = List.range' s d 1 ++ [s + 1 * d] :=
    List.range'_concat s d
  rw [h]
  simp [List.getLast?_append]

/-! ### Concrete environment for witnesses and counterexamples -/

/-- A trivial but valid two-replica environment: trivial payloads, identity
adaptor and dynamics, and the identity permutation `[0, 1]` from the
exchange policy. -/
def envTriv : Env Unit Unit Unit Unit where
  comm_n_replicas := 2
  store_n_replicas := 2
  load_states := fun _ => [⟨(), ()⟩, ⟨(), ()⟩]
  adapt := fun a _ => a
  get_acceptance_probabilities := fun _ => []
  broadcast_states_to_slaves := fun _ => ⟨(), ()⟩
  minimize_then_run := fun s => s
  run_md := fun s => s
  gather_states_from_slaves := fun _ => [⟨(), ()⟩, ⟨(), ()⟩]
  get_energy := fun _ => ()
  gather_energies_from_slaves := fun _ => ()
  compute_exchanges := fun _ => [0, 1]

lemma envTriv_valid : EnvValid envTriv 2 where
  comm := rfl
  store := rfl
  npos := by omega
  load_len := fun _ => rfl
  gather_len := fun _ => rfl
  perm_len := fun _ => rfl
  perm_mem := fun m j hj => by
    simp [envTriv] at hj
    omega

/-- The coordinator freshly constructed with two replicas, one step, no
ramp. -/
lemma init_two_one : init 2 1 none = some ⟨2, 1, 1, [0, 1], none⟩ := by
  have h : ((2 : ℚ) - 1) ≠ 0 := by norm_num
  simp [init, _setup_alphas, h, List.range_succ]
  norm_num

/-! ### Claim C1: one checkpoint per step, tags 1..K, final counter K+1 -/

/-- C1: a run of `max_steps = K ≥ 1` from a fresh coordinator under a valid
environment performs exactly `K` loop iterations (one `save_data_store`
flush each), calls each per-step artifact save exactly once per iteration
with step tags `1..K` in order, and ends with step counter `K + 1` — which
is also the counter stored by the last `save_remd_runner` call (the
serialized counters are `2..K+1`, one per iteration, ending at `K + 1`). -/
theorem run_checkpoints_once_per_step {π ε E M : Type} (env : Env π ε E M)
    (n K : ℕ) (rs : Option ℕ) (st : MasterReplicaExchangeRunner)
    (henv : EnvValid env n) (hK : 1 ≤ K) (hinit : init n K rs = some st) :
    ∃ st2 : MasterReplicaExchangeRunner,
      (MasterReplicaExchangeRunner.run st env).2 = Except.ok st2 ∧
      st2.step = K + 1 ∧
      (tagsOf dataStoreMark (MasterReplicaExchangeRunner.run st env).1).length
        = K ∧
      tagsOf saveStatesTag (MasterReplicaExchangeRunner.run st env).1
        = List.range' 1 K ∧
      tagsOf appendTrajTag (MasterReplicaExchangeRunner.run st env).1
        = List.range' 1 K ∧
      tagsOf saveAlphasTag (MasterReplicaExchangeRunner.run st env).1
        = List.range' 1 K ∧
      tagsOf savePermutationVectorTag (MasterReplicaExchangeRunner.run st env).1
        = List.range' 1 K ∧
      tagsOf saveEnergyMatrixTag (MasterReplicaExchangeRunner.run st env).1
        = List.range' 1 K ∧
      tagsOf saveAcceptanceTag (MasterReplicaExchangeRunner.run st env).1
        = List.range' 1 K ∧
      tagsOf saveRemdTag (MasterReplicaExchangeRunner.run st env).1
        = List.range' 2 K ∧
      (tagsOf saveRemdTag (MasterReplicaExchangeRunner.run st env).1).getLast?
        = some (K + 1) := by
  obtain ⟨a, hr⟩ := run_spec env n K rs st henv hinit
  rw [hr]
  refine ⟨_, rfl, rfl, ?_, ?_, ?_, ?_, ?_, ?_, ?_, ?_, ?_⟩
  · rw [show tagsOf dataStoreMark
        (Event.load_states 0 :: tracePlan rs 1 K)
        = tagsOf dataStoreMark (tracePlan rs 1 K) from rfl,
      tagsOf_tracePlan dataStoreMark (fun _ => 0) rs (dataStoreMark_iter rs) 1 K]
    simp
  · exact tagsOf_tracePlan saveStatesTag (fun k => k) rs
      (saveStatesTag_iter rs) 1 K |>.trans (by simp)
  · exact tagsOf_tracePlan appendTrajTag (fun k => k) rs
      (appendTrajTag_iter rs) 1 K |>.trans (by simp)
  · exact tagsOf_tracePlan saveAlphasTag (fun k => k) rs
      (saveAlphasTag_iter rs) 1 K |>.trans (by simp)
  · exact tagsOf_tracePlan savePermutationVectorTag (fun k => k) rs
      (savePermutationVectorTag_iter rs) 1 K |>.trans (by simp)
  · exact tagsOf_tracePlan saveEnergyMatrixTag (fun k => k) rs
      (saveEnergyMatrixTag_iter rs) 1 K |>.trans (by simp)
  · exact tagsOf_tracePlan saveAcceptanceTag (fun k => k) rs
      (saveAcceptanceTag_iter rs) 1 K |>.trans (by simp)
  · rw [show tagsOf saveRemdTag (Event.load_states 0 :: tracePlan rs 1 K)
        = tagsOf saveRemdTag (tracePlan rs 1 K) from rfl,
      tagsOf_tracePlan saveRemdTag (fun k => k + 1) rs (saveRemdTag_iter rs) 1 K,
      map_succ_range' 1 K]
  · rw [show tagsOf saveRemdTag (Event.load_states 0 :: tracePlan rs 1 K)
        = tagsOf saveRemdTag (tracePlan rs 1 K) from rfl,
      tagsOf_tracePlan saveRemdTag (fun k => k + 1) rs (saveRemdTag_iter rs) 1 K,
      map_succ_range' 1 K, range'_getLast 2 K hK]
    congr 1
    omega

/-- C1 (witness): `envTriv` with `n = 2`, `K = 1`, no ramp. -/
theorem run_checkpoints_once_per_step_witness :
    ∃ st2 : MasterReplicaExchangeRunner,
      (MasterReplicaExchangeRunner.run ⟨2, 1, 1, [0, 1], none⟩ envTriv).2
        = Except.ok st2 ∧
      st2.step = 1 + 1 ∧
      (tagsOf dataStoreMark
        (MasterReplicaExchangeRunner.run ⟨2, 1, 1, [0, 1], none⟩ envTriv).1).length
        = 1 ∧
      tagsOf saveStatesTag
        (MasterReplicaExchangeRunner.run ⟨2, 1, 1, [0, 1], none⟩ envTriv).1
        = List.range' 1 1 ∧
      tagsOf appendTrajTag
        (MasterReplicaExchangeRunner.run ⟨2, 1, 1, [0, 1], none⟩ envTriv).1
        = List.range' 1 1 ∧
      tagsOf saveAlphasTag
        (MasterReplicaExchangeRunner.run ⟨2, 1, 1, [0, 1], none⟩ envTriv).1
        = List.range' 1 1 ∧
      tagsOf savePermutationVectorTag
        (MasterReplicaExchangeRunner.run ⟨2, 1, 1, [0, 1], none⟩ envTriv).1
        = List.range' 1 1 ∧
      tagsOf saveEnergyMatrixTag
        (MasterReplicaExchangeRunner.run ⟨2, 1, 1, [0, 1], none⟩ envTriv).1
        = List.range' 1 1 ∧
      tagsOf saveAcceptanceTag
        (MasterReplicaExchangeRunner.run ⟨2, 1, 1, [0, 1], none⟩ envTriv).1
        = List.range' 1 1 ∧
      tagsOf saveRemdTag
        (MasterReplicaExchangeRunner.run ⟨2, 1, 1, [0, 1], none⟩ envTriv).1
        = List.range' 2 1 ∧
      (tagsOf saveRemdTag
        (MasterReplicaExchangeRunner.run ⟨2, 1, 1, [0, 1], none⟩ envTriv).1).getLast?
        = some (1 + 1) :=
  run_checkpoints_once_per_step envTriv 2 1 none _ envTriv_valid
    (le_refl 1) init_two_one

/-! ### Claim C8: replica-count asserts fire before any collective or store
operation -/

/-- C8: if the coordinator's replica count disagrees with the communicator's
or the store's, `run` fails with the assertion error and its trace is empty:
no collective operation and no store access (not even the initial
`load_states`) has happened. -/
theorem run_mismatch_asserts {π ε E M : Type}
    (self : MasterReplicaExchangeRunner) (env : Env π ε E M)
    (h : self.n_replicas ≠ env.comm_n_replicas ∨
      self.n_replicas ≠ env.store_n_replicas) :
    MasterReplicaExchangeRunner.run self env
      = ([], Except.error RunError.assertion_error) := by
  unfold MasterReplicaExchangeRunner.run
  by_cases h2 : self.n_replicas = env.comm_n_replicas
  · rcases h with h | h
    · exact absurd h2 h
    · rw [if_pos h2, if_neg h]
  · rw [if_neg h2]

/-- C8 (witness): a three-replica coordinator against the two-replica
`envTriv`. -/
theorem run_mismatch_asserts_witness :
    ((⟨3, 1, 1, [0, 1], none⟩ :
        MasterReplicaExchangeRunner).n_replicas ≠ envTriv.comm_n_replicas ∨
     (⟨3, 1, 1, [0, 1], none⟩ :
        MasterReplicaExchangeRunner).n_replicas ≠ envTriv.store_n_replicas) ∧
    MasterReplicaExchangeRunner.run ⟨3, 1, 1, [0, 1], none⟩ envTriv
      = ([], Except.error RunError.assertion_error) :=
  ⟨Or.inl (by decide),
    run_mismatch_asserts _ envTriv (Or.inl (by decide))⟩

/-! ### Claim C10: the base bias passed to set_alpha is always zero -/

lemma set_alpha_mem_iter (rs : Option ℕ) (k : ℕ) (b w : ℚ)
    (h : Event.set_alpha b w ∈ expectedIter rs k) : b = 0 := by
  by_cases h1 : k = 1 <;> simp [expectedIter, h1] at h <;> exact h.1

lemma set_alpha_mem_tracePlan (rs : Option ℕ) :
    ∀ s c (b w : ℚ), Event.set_alpha b w ∈ tracePlan rs s c → b = 0 := by
  intro s c
  induction c generalizing s with
  | zero =>
    intro b w h
    simp [tracePlan] at h
  | succ c ih =>
    intro b w h
    rw [show tracePlan rs s (c + 1) = expectedIter rs s ++ tracePlan rs (s + 1) c
        from rfl] at h
    rcases List.mem_append.mp h with h1 | h2
    · exact set_alpha_mem_iter rs s b w h1
    · exact ih (s + 1) b w h2

/-- C10: in every iteration of the run loop, `system_runner.set_alpha` is
called with base bias exactly `0`; only the ramp weight argument varies. -/
theorem run_set_alpha_base_zero {π ε E M : Type} (env : Env π ε E M)
    (n K : ℕ) (rs : Option ℕ) (st : MasterReplicaExchangeRunner)
    (henv : EnvValid env n) (hinit : init n K rs = some st) :
    ∀ b w : ℚ, Event.set_alpha b w ∈ (MasterReplicaExchangeRunner.run st env).1
      → b = 0 := by
  obtain ⟨a, hr⟩ := run_spec env n K rs st henv hinit
  rw [hr]
  intro b w h
  rcases List.mem_cons.mp h with h1 | h2
  · simp at h1
  · exact set_alpha_mem_tracePlan rs 1 K b w h2

/-- C10 (witness): `envTriv` with a fresh two-replica, one-step coordinator;
the concrete trace does contain a `set_alpha` event (with ramp weight `1`),
and its base bias is `0`. -/
theorem run_set_alpha_base_zero_witness :
    Event.set_alpha 0 1 ∈
      (MasterReplicaExchangeRunner.run ⟨2, 1, 1, [0, 1], none⟩ envTriv).1 ∧
    (0 : ℚ) = 0 :=
  ⟨by decide,
    run_set_alpha_base_zero envTriv 2 1 none _ envTriv_valid init_two_one
      0 1 (by decide)⟩

/-! ### Claim C2: position of the increment within the checkpoint -/

/-- C2 (counterexample): the claim that the resumable state serialized during
step `k` records step count `k` (with the increment happening only
afterwards) is false already for a one-step run: the only
`save_remd_runner` call persists counter `2`, not `1`, because
`self._step += 1` executes before `store.save_remd_runner(self)`. -/
theorem remd_persisted_counter_counterexample :
    init 2 1 none = some ⟨2, 1, 1, [0, 1], none⟩ ∧
    tagsOf saveRemdTag
      (MasterReplicaExchangeRunner.run ⟨2, 1, 1, [0, 1], none⟩ envTriv).1
      = [2] ∧
    ([2] : List ℕ) ≠ [1] :=
  ⟨init_two_one, rfl, by decide⟩

lemma infix_append_left {α : Type} (x l1 l2 : List α) (h : x <:+: l2) :
    x <:+: l1 ++ l2 := by
  obtain ⟨u, t, rfl⟩ := h
  exact ⟨l1 ++ u, t, by simp⟩

lemma iter_infix_tracePlan (rs : Option ℕ) :
    ∀ s c k, s ≤ k → k < s + c → expectedIter rs k <:+: tracePlan rs s c := by
  intro s c
  induction c generalizing s with
  | zero =>
    intro k h1 h2
    omega
  | succ c ih =>
    intro k h1 h2
    by_cases hk : k = s
    · subst hk
      exact ⟨[], tracePlan rs (k + 1) c, by simp [tracePlan]⟩
    · rw [show tracePlan rs s (c + 1) = expectedIter rs s ++ tracePlan rs (s + 1) c
          from rfl]
      exact infix_append_left _ _ _ (ih (s + 1) k (by omega) (by omega))

lemma checkpoint_block_suffix (rs : Option ℕ) (k : ℕ) :
    [Event.save_states k, Event.append_traj k, Event.save_alphas k,
     Event.save_permutation_vector k, Event.save_energy_matrix k,
     Event.save_acceptance_probabilities k, Event.save_data_store,
     Event.inc_step (k + 1), Event.save_remd_runner (k + 1), Event.backup k]
      <:+: expectedIter rs k := by
  refine ⟨[Event.set_alpha 0 (_compute_ramp_weight rs k), Event.broadcast_alphas,
    Event.barrier, Event.broadcast_states, Event.barrier,
    if k = 1 then Event.run_min else Event.run_md,
    Event.gather_states, Event.barrier, Event.broadcast_states_for_energy,
    Event.barrier, Event.gather_energies, Event.barrier, Event.compute_exchanges,
    Event.reseed k], [], ?_⟩
  simp [expectedIter]

/-- C2 (amended): in every iteration completing step `k` of a run from a
fresh coordinator under a valid environment, the trace contains the
consecutive block: the six step-`k` artifact saves and the `save_data_store`
flush first, then the step increment to `k + 1`, then `save_remd_runner`
persisting the already-incremented counter `k + 1`, then `backup k`.  So the
artifact saves do precede the increment, but the coordinator state is
serialized, and the backup requested, after the increment, and the
serialized resumable state of step `k` records step count `k + 1`. -/
theorem run_checkpoint_block_order {π ε E M : Type} (env : Env π ε E M)
    (n K : ℕ) (rs : Option ℕ) (st : MasterReplicaExchangeRunner)
    (henv : EnvValid env n) (hinit : init n K rs = some st)
    (k : ℕ) (hk1 : 1 ≤ k) (hkK : k ≤ K) :
    [Event.save_states k, Event.append_traj k, Event.save_alphas k,
     Event.save_permutation_vector k, Event.save_energy_matrix k,
     Event.save_acceptance_probabilities k, Event.save_data_store,
     Event.inc_step (k + 1), Event.save_remd_runner (k + 1), Event.backup k]
      <:+: (MasterReplicaExchangeRunner.run st env).1 := by
  obtain ⟨a, hr⟩ := run_spec env n K rs st henv hinit
  rw [hr]
  have h1 := iter_infix_tracePlan rs 1 K k hk1 (by omega)
  obtain ⟨u, t, heq⟩ := (checkpoint_block_suffix rs k).trans h1
  refine ⟨Event.load_states 0 :: u, t, ?_⟩
  show Event.load_states 0 :: u ++ _ ++ t = _
  simp only [List.cons_append]
  rw [heq]

/-- C2 (amended, witness): `envTriv`, fresh two-replica coordinator,
`K = k = 1`. -/
theorem run_checkpoint_block_order_witness :
    [Event.save_states 1, Event.append_traj 1, Event.save_alphas 1,
     Event.save_permutation_vector 1, Event.save_energy_matrix 1,
     Event.save_acceptance_probabilities 1, Event.save_data_store,
     Event.inc_step (1 + 1), Event.save_remd_runner (1 + 1), Event.backup 1]
      <:+: (MasterReplicaExchangeRunner.run ⟨2, 1, 1, [0, 1], none⟩ envTriv).1 :=
  run_checkpoint_block_order envTriv 2 1 none _ envTriv_valid init_two_one
    1 (le_refl 1) (le_refl 1)

end Meld
